import Mathlib

/-!
Shallow embedding of the borrows-graph core of the `pcs` crate
(`src/borrows/{borrows_state, borrows_edge, deref_expansion, domain,
region_abstraction}.rs`).  Machine identifiers (locals, regions, def-ids,
basic blocks, statement indices) are modelled as `Nat`; hash sets whose
only observable operations are iteration, membership and difference are
modelled as lists with decidable equality.  Components of the repository
that are only called from the translated files but whose own sources are
absent (`borrows_graph.rs`, `latest.rs`, `path_condition.rs`,
`unblock_graph.rs`, the `utils` place library) are modelled from the
specification and marked as such in their doc comments.
-/

/-- One projection element of a place (`mir::PlaceElem`), per spec §3:
Deref, Field(index), Downcast(variant), Index, ConstantIndex, Subslice,
OpaqueCast. -/
inductive ProjElem where
  | deref : ProjElem
  | field (idx : Nat) : ProjElem
  | downcast (variant : Nat) : ProjElem
  | index : ProjElem
  | constantIndex : ProjElem
  | subslice : ProjElem
  | opaqueCast : ProjElem
deriving DecidableEq, Repr

/-- A place: a local plus a projection path (spec §3; `utils::Place`). -/
structure Place where
  localId : Nat
  projection : List ProjElem
deriving DecidableEq, Repr

/-- An IR location: basic block plus statement index (`mir::Location`). -/
structure MirLocation where
  block : Nat
  statement_index : Nat
deriving DecidableEq, Repr

/-- Modelled from the spec: a snapshot location tag (`utils` is absent from
the sources) is either an IR location, a basic-block join point, or a
before-start marker (spec §3). -/
inductive SnapshotLocation where
  | location (l : MirLocation) : SnapshotLocation
  | join (block : Nat) : SnapshotLocation
  | start : SnapshotLocation
deriving DecidableEq, Repr

/-- A place frozen at a snapshot location (`utils::PlaceSnapshot`). -/
structure PlaceSnapshot where
  place : Place
  atLoc : SnapshotLocation
deriving DecidableEq, Repr

/-- `MaybeOldPlace` from `domain.rs`: a currently-live place or a frozen
snapshot. -/
inductive MaybeOldPlace where
  | Current (place : Place) : MaybeOldPlace
  | OldPlace (snapshot : PlaceSnapshot) : MaybeOldPlace
deriving DecidableEq, Repr

/-- `RemotePlace` from `domain.rs`: the caller-side origin of an incoming
reference parameter, identified by the local it is assigned to. -/
structure RemotePlace where
  localId : Nat
deriving DecidableEq, Repr

/-- `MaybeRemotePlace` from `domain.rs`. -/
inductive MaybeRemotePlace where
  | Local (p : MaybeOldPlace) : MaybeRemotePlace
  | Remote (r : RemotePlace) : MaybeRemotePlace
deriving DecidableEq, Repr

/-- A region projection (`region_projection.rs` is absent from the sources;
modelled from the spec §3: a `MaybeOldPlace` paired with a region
identifier). -/
structure RegionProjection where
  place : MaybeOldPlace
  region : Nat
deriving DecidableEq, Repr

/-- Mutability of a borrow (`ast::Mutability`). -/
inductive Mutability where
  | Not : Mutability
  | Mut : Mutability
deriving DecidableEq, Repr

/-- `Reborrow` from `domain.rs`. -/
structure Reborrow where
  blocked_place : MaybeRemotePlace
  assigned_place : MaybeOldPlace
  mutability : Mutability
  reserve_location : MirLocation
  region : Nat
deriving DecidableEq, Repr

/-- `BorrowDerefExpansion` from `deref_expansion.rs`: a base place plus the
one-step projection elements of the materialized children. -/
structure BorrowDerefExpansion where
  base : MaybeOldPlace
  expansionElems : List ProjElem
  location : MirLocation
deriving DecidableEq, Repr

/-- `DerefExpansion` from `deref_expansion.rs`. -/
inductive DerefExpansion where
  | OwnedExpansion (base : MaybeOldPlace) : DerefExpansion
  | BorrowExpansion (e : BorrowDerefExpansion) : DerefExpansion
deriving DecidableEq, Repr

/-- `AbstractionTarget` from `domain.rs`: a place or a region projection. -/
inductive AbstractionTarget (T : Type) where
  | place (t : T) : AbstractionTarget T
  | regionProjection (rp : RegionProjection) : AbstractionTarget T
deriving DecidableEq, Repr

abbrev AbstractionInputTarget := AbstractionTarget MaybeRemotePlace
abbrev AbstractionOutputTarget := AbstractionTarget MaybeOldPlace

/-- `AbstractionBlockEdge` from `domain.rs`: inputs and outputs of an opaque
many-to-many dependency.  The source stores vectors and compares them with
set semantics; the model keeps the vectors. -/
structure AbstractionBlockEdge where
  inputs : List AbstractionInputTarget
  outputs : List AbstractionOutputTarget
deriving DecidableEq, Repr

/-- `FunctionCallAbstraction` from `domain.rs` (`def_id` and `substs` are
opaque identifiers). -/
structure FunctionCallAbstraction where
  location : MirLocation
  def_id : Nat
  substs : Nat
  edges : List (Nat × AbstractionBlockEdge)
deriving DecidableEq, Repr

/-- `LoopAbstraction` from `domain.rs`. -/
structure LoopAbstraction where
  edge : AbstractionBlockEdge
  block : Nat
deriving DecidableEq, Repr

/-- `AbstractionType` from `domain.rs`. -/
inductive AbstractionType where
  | FunctionCall (c : FunctionCallAbstraction) : AbstractionType
  | Loop (c : LoopAbstraction) : AbstractionType
deriving DecidableEq, Repr

/-- `AbstractionEdge` from `region_abstraction.rs`. -/
structure AbstractionEdge where
  abstraction_type : AbstractionType
deriving DecidableEq, Repr

/-- `RegionProjectionMemberDirection` from `borrows_state.rs`. -/
inductive RegionProjectionMemberDirection where
  | PlaceIsRegionInput : RegionProjectionMemberDirection
  | PlaceIsRegionOutput : RegionProjectionMemberDirection
deriving DecidableEq, Repr

/-- `RegionProjectionMember` from `borrows_state.rs`. -/
structure RegionProjectionMember where
  place : MaybeRemotePlace
  projection : RegionProjection
  location : MirLocation
  direction : RegionProjectionMemberDirection
deriving DecidableEq, Repr

/-- Modelled from the spec: a path condition (`path_condition.rs` is absent
from the sources) records a directed edge between two basic blocks
(spec §3).  The validity-predicate variant is driver-facing and not
needed by the translated operations. -/
structure PathCondition where
  fromBlock : Nat
  toBlock : Nat
deriving DecidableEq, Repr

/-- Modelled from the spec: `PathConditions` is a set of path conditions
(spec §3); kept as a duplicate-free list under `insert`. -/
structure PathConditions where
  conds : List PathCondition
deriving DecidableEq, Repr

/-- `BorrowsEdgeKind` from `borrows_edge.rs`. -/
inductive BorrowsEdgeKind where
  | Reborrow (r : Reborrow) : BorrowsEdgeKind
  | DerefExpansion (d : DerefExpansion) : BorrowsEdgeKind
  | Abstraction (a : AbstractionEdge) : BorrowsEdgeKind
  | RegionProjectionMember (m : RegionProjectionMember) : BorrowsEdgeKind
deriving DecidableEq, Repr

/-- `BorrowsEdge` from `borrows_edge.rs`: path conditions plus a kind. -/
structure BorrowsEdge where
  conditions : PathConditions
  kind : BorrowsEdgeKind
deriving DecidableEq, Repr

/-- `Conditioned<T>` from `borrows_graph.rs` (declared in the spec §3):
path conditions paired with a value. -/
structure Conditioned (T : Type) where
  conditions : PathConditions
  value : T
deriving DecidableEq, Repr

/-- Modelled from the spec: the `Latest` map (`latest.rs` is absent from
the sources) sends locals to their most recent write location (spec §3,
§4.C); kept as an association list whose `insert` overwrites. -/
structure Latest where
  entries : List (Nat × SnapshotLocation)
deriving DecidableEq, Repr

/-- Modelled from the spec: `BorrowsGraph` (`borrows_graph.rs` is absent
from the sources) is an unordered set of `BorrowsEdge` (spec §3); kept as
a list, with all queries phrased through membership. -/
structure BorrowsGraph where
  edges : List BorrowsEdge
deriving DecidableEq, Repr

/-- `BorrowsState` from `borrows_state.rs`: the latest map plus the graph. -/
structure BorrowsState where
  latest : Latest
  graph : BorrowsGraph
deriving DecidableEq, Repr

/-- Modelled from the spec: `Place::is_prefix` (`utils` is absent from the
sources): same local and the projection is a list prefix of the other's
(spec §3). -/
def Place.isPrefixOf (p q : Place) : Bool :=
  p.localId == q.localId && List.isPrefixOf p.projection q.projection

/-- Modelled from the spec: `project_deref` appends a `Deref` projection
element (spec §4.A). -/
def Place.project_deref (p : Place) : Place :=
  { p with projection := p.projection ++ [ProjElem.deref] }

/-- Modelled from the spec: `project_deeper(elem)` appends a projection
element (spec §4.A). -/
def Place.project_deeper (p : Place) (elem : ProjElem) : Place :=
  { p with projection := p.projection ++ [elem] }

/-- Modelled from the spec: `Latest::insert` overwrites the binding of the
local (spec §4.C); the first matching entry wins in `get`, so consing
implements the overwrite. -/
def Latest.insert (m : Latest) (l : Nat) (loc : SnapshotLocation) : Latest :=
  ⟨(l, loc) :: m.entries⟩

/-- Modelled from the spec: `Latest::get(place)` returns the recorded
location for `place.local`, defaulting to the function-entry marker
(spec §4.C). -/
def Latest.get (m : Latest) (p : Place) : SnapshotLocation :=
  (m.entries.lookup p.localId).getD SnapshotLocation.start

/-- `MaybeOldPlace::is_current` from `domain.rs`. -/
def MaybeOldPlace.is_current : MaybeOldPlace → Bool
  | .Current _ => true
  | .OldPlace _ => false

/-- `MaybeOldPlace::is_old` from `domain.rs`. -/
def MaybeOldPlace.is_old : MaybeOldPlace → Bool
  | .Current _ => false
  | .OldPlace _ => true

/-- `MaybeOldPlace::place` from `domain.rs`. -/
def MaybeOldPlace.place : MaybeOldPlace → Place
  | .Current p => p
  | .OldPlace s => s.place

/-- `MaybeOldPlace::location` from `domain.rs`. -/
def MaybeOldPlace.location : MaybeOldPlace → Option SnapshotLocation
  | .Current _ => none
  | .OldPlace s => some s.atLoc

/-- `MaybeOldPlace::new(place, at)` from `domain.rs`. -/
def MaybeOldPlace.mk' (place : Place) (at? : Option SnapshotLocation) : MaybeOldPlace :=
  match at? with
  | some a => .OldPlace ⟨place, a⟩
  | none => .Current place

/-- `MaybeOldPlace::project_deref` from `domain.rs`: projects the
underlying place and preserves the snapshot tag. -/
def MaybeOldPlace.project_deref (p : MaybeOldPlace) : MaybeOldPlace :=
  MaybeOldPlace.mk' p.place.project_deref p.location

/-- `MaybeOldPlace::project_deeper` from `domain.rs`: projects the
underlying place one element deeper and preserves the snapshot tag. -/
def MaybeOldPlace.project_deeper (p : MaybeOldPlace) (elem : ProjElem) : MaybeOldPlace :=
  MaybeOldPlace.mk' (p.place.project_deeper elem) p.location

/-- `MaybeOldPlace::make_place_old` from `domain.rs` lines 454-461: a
`Current` place with `place` as prefix is frozen at `latest.get`; anything
else is left unchanged. -/
def MaybeOldPlace.make_place_old (self : MaybeOldPlace) (place : Place) (latest : Latest) : MaybeOldPlace :=
  if self.is_current && place.isPrefixOf self.place then
    .OldPlace ⟨self.place, latest.get self.place⟩
  else
    self

/-- `MaybeRemotePlace::is_old` from `domain.rs`. -/
def MaybeRemotePlace.is_old : MaybeRemotePlace → Bool
  | .Local p => p.is_old
  | .Remote _ => false

/-- `MaybeRemotePlace::as_local_place` from `domain.rs` lines 542-548. -/
def MaybeRemotePlace.as_local_place : MaybeRemotePlace → Option MaybeOldPlace
  | .Local p => some p
  | .Remote _ => none

/-- Substitution on a `MaybeRemotePlace`: the `Local` payload is its only
place element (`HasPcsElems` in `domain.rs` lines 507-514); a `Remote`
place carries none. -/
def MaybeRemotePlace.make_place_old (self : MaybeRemotePlace) (place : Place) (latest : Latest) : MaybeRemotePlace :=
  match self with
  | .Local p => .Local (p.make_place_old place latest)
  | .Remote r => .Remote r

/-- Modelled from the spec: substitution on a `RegionProjection`
(`region_projection.rs` is absent from the sources) rewrites its place
element (spec §4.E rewrites every `MaybeOldPlace` occurrence). -/
def RegionProjection.make_place_old (self : RegionProjection) (place : Place) (latest : Latest) : RegionProjection :=
  { self with place := self.place.make_place_old place latest }

/-- Substitution on a `Reborrow`: its place elements are the assigned place
and the blocked place (`HasPcsElems` in `domain.rs` lines 597-603). -/
def Reborrow.make_place_old (self : Reborrow) (place : Place) (latest : Latest) : Reborrow :=
  { self with
    blocked_place := self.blocked_place.make_place_old place latest
    assigned_place := self.assigned_place.make_place_old place latest }

/-- `DerefExpansion::base` from `deref_expansion.rs`. -/
def DerefExpansion.base : DerefExpansion → MaybeOldPlace
  | .OwnedExpansion b => b
  | .BorrowExpansion e => e.base

/-- `DerefExpansion::is_owned_expansion` from `deref_expansion.rs`. -/
def DerefExpansion.is_owned_expansion : DerefExpansion → Bool
  | .OwnedExpansion _ => true
  | .BorrowExpansion _ => false

/-- `BorrowDerefExpansion::expansion` from `deref_expansion.rs` lines 28-33:
each stored element projected under the base. -/
def BorrowDerefExpansion.expansion (e : BorrowDerefExpansion) : List MaybeOldPlace :=
  e.expansionElems.map (fun p => e.base.project_deeper p)

/-- `DerefExpansion::expansion` from `deref_expansion.rs` lines 137-142: an
owned expansion dereferences its base; a borrow expansion enumerates its
children. -/
def DerefExpansion.expansion : DerefExpansion → List MaybeOldPlace
  | .OwnedExpansion b => [b.project_deref]
  | .BorrowExpansion e => e.expansion

/-- `DerefExpansion::make_place_old` from `deref_expansion.rs` lines 69-74:
only the base is rewritten. -/
def DerefExpansion.make_place_old (self : DerefExpansion) (place : Place) (latest : Latest) : DerefExpansion :=
  match self with
  | .OwnedExpansion b => .OwnedExpansion (b.make_place_old place latest)
  | .BorrowExpansion e => .BorrowExpansion { e with base := e.base.make_place_old place latest }

/-- Substitution on an abstraction input target (`HasPcsElems` in
`domain.rs` lines 211-218). -/
def AbstractionInputTarget.make_place_old (self : AbstractionInputTarget) (place : Place) (latest : Latest) : AbstractionInputTarget :=
  match self with
  | .place p => .place (p.make_place_old place latest)
  | .regionProjection rp => .regionProjection (rp.make_place_old place latest)

/-- Substitution on an abstraction output target (`HasPcsElems` in
`domain.rs` lines 202-209). -/
def AbstractionOutputTarget.make_place_old (self : AbstractionOutputTarget) (place : Place) (latest : Latest) : AbstractionOutputTarget :=
  match self with
  | .place p => .place (p.make_place_old place latest)
  | .regionProjection rp => .regionProjection (rp.make_place_old place latest)

/-- Substitution on an `AbstractionBlockEdge`: every input and output place
element (`HasPcsElems` in `domain.rs` lines 168-179). -/
def AbstractionBlockEdge.make_place_old (self : AbstractionBlockEdge) (place : Place) (latest : Latest) : AbstractionBlockEdge :=
  { inputs := self.inputs.map (fun i => i.make_place_old place latest)
    outputs := self.outputs.map (fun o => o.make_place_old place latest) }

/-- `AbstractionType::edges` from `domain.rs` lines 252-259. -/
def AbstractionType.edges : AbstractionType → List AbstractionBlockEdge
  | .FunctionCall c => c.edges.map Prod.snd
  | .Loop c => [c.edge]

/-- `AbstractionType::location` from `domain.rs` lines 220-226 (a loop
abstraction is located at statement 0 of its block). -/
def AbstractionType.location : AbstractionType → MirLocation
  | .FunctionCall c => c.location
  | .Loop c => ⟨c.block, 0⟩

/-- `AbstractionType::blocks_places` from `domain.rs` lines 241-250: the
inputs of all edges restricted to place targets. -/
def AbstractionType.blocks_places (a : AbstractionType) : List MaybeRemotePlace :=
  (a.edges.flatMap (fun e => e.inputs)).filterMap (fun i =>
    match i with
    | .place p => some p
    | .regionProjection _ => none)

/-- `AbstractionType::blocker_places` from `domain.rs` lines 261-270: the
outputs of all edges, region projections projected to their place. -/
def AbstractionType.blocker_places (a : AbstractionType) : List MaybeOldPlace :=
  (a.edges.flatMap (fun e => e.outputs)).map (fun o =>
    match o with
    | .place p => p
    | .regionProjection rp => rp.place)

/-- Substitution on an `AbstractionType`: elementwise over all block
edges (`HasPcsElems` in `domain.rs` lines 125-132). -/
def AbstractionType.make_place_old (self : AbstractionType) (place : Place) (latest : Latest) : AbstractionType :=
  match self with
  | .FunctionCall c =>
      .FunctionCall { c with edges := c.edges.map (fun pr => (pr.1, pr.2.make_place_old place latest)) }
  | .Loop c => .Loop { c with edge := c.edge.make_place_old place latest }

/-- `AbstractionEdge::location` from `region_abstraction.rs`. -/
def AbstractionEdge.location (a : AbstractionEdge) : MirLocation :=
  a.abstraction_type.location

/-- `AbstractionEdge::blocks_places` from `region_abstraction.rs`. -/
def AbstractionEdge.blocks_places (a : AbstractionEdge) : List MaybeRemotePlace :=
  a.abstraction_type.blocks_places

/-- `AbstractionEdge::blocked_by_places` from `region_abstraction.rs`. -/
def AbstractionEdge.blocked_by_places (a : AbstractionEdge) : List MaybeOldPlace :=
  a.abstraction_type.blocker_places

/-- `AbstractionEdge::make_place_old` from `region_abstraction.rs` lines
24-26. -/
def AbstractionEdge.make_place_old (self : AbstractionEdge) (place : Place) (latest : Latest) : AbstractionEdge :=
  ⟨self.abstraction_type.make_place_old place latest⟩

/-- `RegionProjectionMember::make_place_old` from `borrows_state.rs` lines
68-71: rewrites the member's place and its projection. -/
def RegionProjectionMember.make_place_old (self : RegionProjectionMember) (place : Place) (latest : Latest) : RegionProjectionMember :=
  { self with
    place := self.place.make_place_old place latest
    projection := self.projection.make_place_old place latest }

/-- `BorrowsEdgeKind::is_shared_borrow` from `borrows_edge.rs` lines
119-125: true only for a `Reborrow` with shared mutability. -/
def BorrowsEdgeKind.is_shared_borrow : BorrowsEdgeKind → Bool
  | .Reborrow reborrow => reborrow.mutability == Mutability.Not
  | _ => false

/-- `BorrowsEdgeKind::blocked_places` from `borrows_edge.rs` lines
139-155. -/
def BorrowsEdgeKind.blocked_places : BorrowsEdgeKind → List MaybeRemotePlace
  | .Reborrow reborrow => [reborrow.blocked_place]
  | .DerefExpansion de => [.Local de.base]
  | .Abstraction ra => ra.blocks_places
  | .RegionProjectionMember member =>
      match member.direction with
      | .PlaceIsRegionInput => [member.place]
      | .PlaceIsRegionOutput => []

/-- `BorrowsEdgeKind::blocked_by_places` from `borrows_edge.rs` lines
158-179.  `none` models the panic from `as_local_place().unwrap()` on a
remote place in the `PlaceIsRegionOutput` case. -/
def BorrowsEdgeKind.blocked_by_places : BorrowsEdgeKind → Option (List MaybeOldPlace)
  | .Reborrow reborrow => some [reborrow.assigned_place]
  | .DerefExpansion de => some de.expansion
  | .Abstraction ra => some ra.blocked_by_places
  | .RegionProjectionMember member =>
      match member.direction with
      | .PlaceIsRegionInput => some [member.projection.place]
      | .PlaceIsRegionOutput =>
          match member.place.as_local_place with
          | some p => some [p]
          | none => none

/-- `BorrowsEdgeKind::make_place_old`: the capability dispatch by case
analysis (spec §9; the per-kind substitutions are in the sources). -/
def BorrowsEdgeKind.make_place_old (self : BorrowsEdgeKind) (place : Place) (latest : Latest) : BorrowsEdgeKind :=
  match self with
  | .Reborrow r => .Reborrow (r.make_place_old place latest)
  | .DerefExpansion d => .DerefExpansion (d.make_place_old place latest)
  | .Abstraction a => .Abstraction (a.make_place_old place latest)
  | .RegionProjectionMember m => .RegionProjectionMember (m.make_place_old place latest)

/-- `BorrowsEdge::is_shared_borrow` from `borrows_edge.rs`. -/
def BorrowsEdge.is_shared_borrow (e : BorrowsEdge) : Bool :=
  e.kind.is_shared_borrow

/-- `BorrowsEdge::blocked_places` from `borrows_edge.rs`. -/
def BorrowsEdge.blocked_places (e : BorrowsEdge) : List MaybeRemotePlace :=
  e.kind.blocked_places

/-- `BorrowsEdge::blocked_by_places` from `borrows_edge.rs` (with `none`
modelling the panic). -/
def BorrowsEdge.blocked_by_places (e : BorrowsEdge) : Option (List MaybeOldPlace) :=
  e.kind.blocked_by_places

/-- Substitution on a whole edge: conditions are untouched, the kind is
rewritten (spec §4.E `make_place_old` rewrites every edge in place). -/
def BorrowsEdge.make_place_old (e : BorrowsEdge) (place : Place) (latest : Latest) : BorrowsEdge :=
  { e with kind := e.kind.make_place_old place latest }

/-- Modelled from the spec: `PathConditions::insert` adds a condition and
reports growth (spec §4.B); duplicate-free list insertion. -/
def PathConditions.insertPC (pcs : PathConditions) (pc : PathCondition) : PathConditions :=
  if pc ∈ pcs.conds then pcs else ⟨pc :: pcs.conds⟩

/-- Modelled from the spec: `BorrowsGraph::edges_blocking(place)` iterates
the edges whose `blocked_places` contains `place` (spec §4.E). -/
def BorrowsGraph.edges_blocking (g : BorrowsGraph) (place : MaybeRemotePlace) : List BorrowsEdge :=
  g.edges.filter (fun e => place ∈ e.kind.blocked_places)

/-- Modelled from the spec: `BorrowsGraph::has_edge_blocking(place)`
(spec §4.E). -/
def BorrowsGraph.has_edge_blocking (g : BorrowsGraph) (place : MaybeRemotePlace) : Bool :=
  g.edges.any (fun e => place ∈ e.kind.blocked_places)

/-- Modelled from the spec: `BorrowsGraph::remove(edge)` removes exactly
the provided edge (spec §4.E). -/
def BorrowsGraph.remove (g : BorrowsGraph) (edge : BorrowsEdge) : BorrowsGraph :=
  ⟨g.edges.erase edge⟩

/-- Modelled from the spec: `BorrowsGraph::reborrows()` is the typed
projection of the reborrow edges as `Conditioned` values (spec §4.E). -/
def BorrowsGraph.reborrows (g : BorrowsGraph) : List (Conditioned Reborrow) :=
  g.edges.filterMap (fun e =>
    match e.kind with
    | .Reborrow rb => some ⟨e.conditions, rb⟩
    | _ => none)

/-- Modelled from the spec: `BorrowsGraph::deref_expansions()` (spec
§4.E). -/
def BorrowsGraph.deref_expansions (g : BorrowsGraph) : List (Conditioned DerefExpansion) :=
  g.edges.filterMap (fun e =>
    match e.kind with
    | .DerefExpansion de => some ⟨e.conditions, de⟩
    | _ => none)

/-- Modelled from the spec: `BorrowsGraph::abstraction_edges()` (spec
§4.E). -/
def BorrowsGraph.abstraction_edges (g : BorrowsGraph) : List (Conditioned AbstractionEdge) :=
  g.edges.filterMap (fun e =>
    match e.kind with
    | .Abstraction a => some ⟨e.conditions, a⟩
    | _ => none)

/-- Modelled from the spec: `BorrowsGraph::has_reborrow_at_location(loc)`
is true iff some reborrow's `reserve_location` equals `loc` (spec §4.E). -/
def BorrowsGraph.has_reborrow_at_location (g : BorrowsGraph) (loc : MirLocation) : Bool :=
  g.edges.any (fun e =>
    match e.kind with
    | .Reborrow rb => rb.reserve_location == loc
    | _ => false)

/-- Modelled from the spec: `BorrowsGraph::make_place_old` rewrites every
edge (spec §4.E). -/
def BorrowsGraph.make_place_old (g : BorrowsGraph) (place : Place) (latest : Latest) : BorrowsGraph :=
  ⟨g.edges.map (fun e => e.make_place_old place latest)⟩

/-- Modelled from the spec: `BorrowsGraph::join` tags each of `other`'s
edges with the inbound transition `(other_block, self_block)` before
unioning, and tags each of `self`'s edges absent in `other` with
`(self_block, self_block)`; it returns whether `self` changed (spec §4.E).
The polonius-informed replacement of loop-head abstraction edges is left
out: the spec itself calls it implementation-sensitive (§8). -/
def BorrowsGraph.join (self other : BorrowsGraph) (self_block other_block : Nat) : BorrowsGraph × Bool :=
  let fromOther := other.edges.map (fun e =>
    { e with conditions := e.conditions.insertPC ⟨other_block, self_block⟩ })
  let selfTagged := self.edges.map (fun e =>
    if e ∈ other.edges then e
    else { e with conditions := e.conditions.insertPC ⟨self_block, self_block⟩ })
  let result := selfTagged ++ fromOther.filter (fun e => e ∉ selfTagged)
  (⟨result⟩, decide (result ≠ self.edges))

/-- Modelled from the spec: `Latest::join(other, merge_block)` keeps a
binding where both sides agree and otherwise records the merge block's
join marker; it reports whether any observed value changed (spec §4.C). -/
def Latest.join (self other : Latest) (block : Nat) : Latest × Bool :=
  let keys := (self.entries.map Prod.fst ++ other.entries.map Prod.fst).dedup
  let merged : Latest := ⟨keys.map (fun l =>
    (l, if self.get ⟨l, []⟩ = other.get ⟨l, []⟩ then self.get ⟨l, []⟩
        else SnapshotLocation.join block))⟩
  (merged, keys.any (fun l => merged.get ⟨l, []⟩ ≠ self.get ⟨l, []⟩))

/-- An action request recorded while an `UnblockGraph` is constructed.
Modelled from the spec: `unblock_graph.rs` is absent from the sources, and
`BorrowsState::bridge` only drives the three construction primitives
`kill_reborrow`, `unblock_place` and `kill_abstraction` (spec §4.F), so
the unblock graph is represented by the requests issued to it. -/
inductive UnblockCommand where
  | killReborrow (rb : Conditioned Reborrow) : UnblockCommand
  | unblockPlace (place : MaybeRemotePlace) : UnblockCommand
  | killAbstraction (a : Conditioned AbstractionEdge) : UnblockCommand
deriving DecidableEq, Repr

/-- `ReborrowBridge` as produced by `BorrowsState::bridge` in
`borrows_state.rs` lines 311-352. -/
structure ReborrowBridge where
  added_reborrows : List (Conditioned Reborrow)
  expands : List (Conditioned DerefExpansion)
  ug : List UnblockCommand
deriving DecidableEq, Repr

/-- `BorrowsState::set_latest` from `borrows_state.rs` lines 497-499. -/
def BorrowsState.set_latest (s : BorrowsState) (place : Place) (loc : SnapshotLocation) : BorrowsState :=
  { s with latest := s.latest.insert place.localId loc }

/-- `BorrowsState::get_latest` from `borrows_state.rs` lines 501-503. -/
def BorrowsState.get_latest (s : BorrowsState) (place : Place) : SnapshotLocation :=
  s.latest.get place

/-- `BorrowsState::make_place_old` from `borrows_state.rs` lines 589-596:
the substitution is delegated to the graph, which reads the (unchanged)
latest map. -/
def BorrowsState.make_place_old (s : BorrowsState) (place : Place) : BorrowsState :=
  { s with graph := s.graph.make_place_old place s.latest }

/-- `BorrowsState::join` from `borrows_state.rs` lines 107-134: joins the
graph and the latest map; the boolean returned by `latest.join` is
discarded (its use is commented out in the source to prevent divergence
on loops), so the reported change is the graph's alone. -/
def BorrowsState.join (s : BorrowsState) (other : BorrowsState) (self_block other_block : Nat) : BorrowsState × Bool :=
  let gj := BorrowsGraph.join s.graph other.graph self_block other_block
  let lj := Latest.join s.latest other.latest self_block
  ({ latest := lj.1, graph := gj.1 }, gj.2)

/-- One iteration of the loop of `remove_edge_and_set_latest`
(`borrows_state.rs` lines 160-167): a blocked place that is a local
`Current` place has `location` recorded for its local. -/
def recordBlocked (location : MirLocation) (acc : BorrowsState) (p : MaybeRemotePlace) : BorrowsState :=
  match p with
  | .Local (.Current place) => acc.set_latest place (.location location)
  | _ => acc

/-- `BorrowsState::remove_edge_and_set_latest` from `borrows_state.rs`
lines 153-170: unless the edge is a shared borrow, every blocked place
that is a local `Current` place has `location` recorded for its local;
then the edge is removed.  The returned flag is `graph.remove`'s. -/
def BorrowsState.remove_edge_and_set_latest (s : BorrowsState) (edge : BorrowsEdge) (location : MirLocation) : BorrowsState × Bool :=
  let s1 :=
    if edge.is_shared_borrow then s
    else edge.blocked_places.foldl (recordBlocked location) s
  ({ s1 with graph := s1.graph.remove edge }, decide (edge ∈ s1.graph.edges))

/-- Sequential removal of a batch of edges through
`remove_edge_and_set_latest`, as done by the loops of `minimize` and
`trim_old_leaves` in `borrows_state.rs`. -/
def BorrowsState.removeEdges (s : BorrowsState) (edges : List BorrowsEdge) (location : MirLocation) : BorrowsState :=
  edges.foldl (fun acc e => (acc.remove_edge_and_set_latest e location).1) s

/-- The removal condition of `BorrowsState::minimize` (`borrows_state.rs`
lines 195-211) for an edge whose `blocked_by_places` is defined: all
blockers are old and unblocked, or the edge is a non-owned deref
expansion all of whose children are unblocked. -/
def minimizeCond (g : BorrowsGraph) (edge : BorrowsEdge) : Bool :=
  let is_old_unblocked :=
    match edge.kind.blocked_by_places with
    | some ps => ps.all (fun p => p.is_old && !(g.has_edge_blocking (.Local p)))
    | none => false
  is_old_unblocked ||
    match edge.kind with
    | .DerefExpansion de =>
        !de.is_owned_expansion &&
          de.expansion.all (fun p => !(g.has_edge_blocking (.Local p)))
    | _ => false

/-- Whether some edge of the graph has an undefined `blocked_by_places`
(the remote `PlaceIsRegionOutput` panic): evaluating the filter of
`minimize` or the leaf scan of `trim_old_leaves` on such a graph panics. -/
def BorrowsGraph.blockedByUndefined (g : BorrowsGraph) : Bool :=
  g.edges.any (fun e => e.kind.blocked_by_places.isNone)

/-- Fuel-indexed iteration of `BorrowsState::minimize` (`borrows_state.rs`
lines 190-221): collect the edges satisfying the removal condition, stop
at a fixpoint, otherwise remove them all and repeat.  `none` models both
a panic while evaluating `blocked_by_places` and fuel exhaustion (the
fuel `graph.edges.length + 1` used by `minimize` never exhausts, since
every iteration removes at least one edge). -/
def minimizeF : Nat → BorrowsState → MirLocation → Option BorrowsState
  | 0, _, _ => none
  | n + 1, s, location =>
    if s.graph.blockedByUndefined then none
    else
      let to_remove := s.graph.edges.filter (fun e => minimizeCond s.graph e)
      if to_remove.isEmpty then some s
      else minimizeF n (s.removeEdges to_remove location) location

/-- `BorrowsState::minimize` from `borrows_state.rs` lines 190-221. -/
def BorrowsState.minimize (s : BorrowsState) (location : MirLocation) : Option BorrowsState :=
  minimizeF (s.graph.edges.length + 1) s location

/-- Modelled from the spec: `BorrowsGraph::leaf_edges` are the edges whose
blocked-by places are not blocked by any other edge, the tips of the
graph (spec §4.E).  Only called on graphs where `blocked_by_places` is
everywhere defined. -/
def BorrowsGraph.leaf_edges (g : BorrowsGraph) : List BorrowsEdge :=
  g.edges.filter (fun e =>
    match e.kind.blocked_by_places with
    | some ps => ps.all (fun p => !(g.has_edge_blocking (.Local p)))
    | none => false)

/-- The edges removed by one pass of `BorrowsState::trim_old_leaves`
(`borrows_state.rs` lines 533-547): the leaf edges whose blockers are all
old. -/
def trimRemoved (g : BorrowsGraph) : List BorrowsEdge :=
  g.leaf_edges.filter (fun e =>
    match e.kind.blocked_by_places with
    | some ps => ps.all (fun p => p.is_old)
    | none => false)

/-- Fuel-indexed iteration of `BorrowsState::trim_old_leaves`
(`borrows_state.rs` lines 533-547); `none` as in `minimizeF`. -/
def trimOldLeavesF : Nat → BorrowsState → MirLocation → Option BorrowsState
  | 0, _, _ => none
  | n + 1, s, location =>
    if s.graph.blockedByUndefined then none
    else
      let removed := trimRemoved s.graph
      if removed.isEmpty then some s
      else trimOldLeavesF n (s.removeEdges removed location) location

/-- `BorrowsState::trim_old_leaves` from `borrows_state.rs` lines
533-547. -/
def BorrowsState.trim_old_leaves (s : BorrowsState) (location : MirLocation) : Option BorrowsState :=
  trimOldLeavesF (s.graph.edges.length + 1) s location

/-- `BorrowsState::edges_blocking` from `borrows_state.rs` lines
263-268. -/
def BorrowsState.edges_blocking (s : BorrowsState) (place : MaybeRemotePlace) : List BorrowsEdge :=
  s.graph.edges_blocking place

/-- `BorrowsState::get_place_blocking` from `borrows_state.rs` lines
250-261: `some none` is the source's `None` (not exactly one blocking
edge), `some (some p)` its `Some(p)`, and `none` the `todo!()` panic on a
single non-reborrow blocking edge. -/
def BorrowsState.get_place_blocking (s : BorrowsState) (place : MaybeRemotePlace) : Option (Option MaybeOldPlace) :=
  match s.edges_blocking place with
  | [e] =>
      match e.kind with
      | .Reborrow reborrow => some (some reborrow.assigned_place)
      | _ => none
  | _ => some none

/-- `BorrowsState::reborrows` from `borrows_state.rs` lines 307-309. -/
def BorrowsState.reborrows (s : BorrowsState) : List (Conditioned Reborrow) :=
  s.graph.reborrows

/-- `BorrowsState::deref_expansions` from `borrows_state.rs` lines
274-276. -/
def BorrowsState.deref_expansions (s : BorrowsState) : List (Conditioned DerefExpansion) :=
  s.graph.deref_expansions

/-- `BorrowsState::region_abstractions` from `borrows_state.rs` lines
565-567. -/
def BorrowsState.region_abstractions (s : BorrowsState) : List (Conditioned AbstractionEdge) :=
  s.graph.abstraction_edges

/-- `BorrowsState::has_reborrow_at_location` from `borrows_state.rs` lines
561-563. -/
def BorrowsState.has_reborrow_at_location (s : BorrowsState) (loc : MirLocation) : Bool :=
  s.graph.has_reborrow_at_location loc

/-- `BorrowsState::bridge` from `borrows_state.rs` lines 311-352:
`added_reborrows` are `to`'s reborrows without a reborrow of `self` at
their reserve location; `expands` is the difference of the deref
expansions; the unblock graph receives a kill for each reborrow of `self`
absent (by reserve location) in `to`, an unblock of the base of each
deref expansion of `self` not in `to`, and a kill for each abstraction of
`self` not in `to`. -/
def BorrowsState.bridge (s toS : BorrowsState) : ReborrowBridge :=
  let added_reborrows := toS.reborrows.filter (fun rb =>
    !(s.has_reborrow_at_location rb.value.reserve_location))
  let expands := toS.deref_expansions.filter (fun de =>
    de ∉ s.deref_expansions)
  let ugKillReborrows := (s.reborrows.filter (fun rb =>
    !(toS.has_reborrow_at_location rb.value.reserve_location))).map
      UnblockCommand.killReborrow
  let ugUnblocks := (s.deref_expansions.filter (fun de =>
    de ∉ toS.deref_expansions)).map (fun de =>
      UnblockCommand.unblockPlace (.Local de.value.base))
  let ugKillAbstractions := (s.region_abstractions.filter (fun a =>
    a ∉ toS.region_abstractions)).map UnblockCommand.killAbstraction
  { added_reborrows := added_reborrows
    expands := expands
    ug := ugKillReborrows ++ ugUnblocks ++ ugKillAbstractions }

/-- C2: for every `BorrowsEdge`, `blocked_places` and `blocked_by_places`
follow the taxonomy table: a Reborrow blocks the blocked place and is
blocked by the assigned place; a BorrowExpansion blocks its base and is
blocked by the children enumerated by its expansion; an OwnedExpansion
blocks its base and is blocked by the dereference of the base; an
Abstraction blocks the union of its edges' inputs restricted to concrete
places and is blocked by the union of its outputs projected to places; a
RegionProjectionMember with direction `PlaceIsRegionInput` blocks its
place and is blocked by its projection's place; one with direction
`PlaceIsRegionOutput` blocks nothing and (for a local place) is blocked
by that place. -/
theorem blocked_places_taxonomy :
    (∀ rb : Reborrow,
      (BorrowsEdgeKind.Reborrow rb).blocked_places = [rb.blocked_place] ∧
      (BorrowsEdgeKind.Reborrow rb).blocked_by_places = some [rb.assigned_place]) ∧
    (∀ e : BorrowDerefExpansion,
      (BorrowsEdgeKind.DerefExpansion (.BorrowExpansion e)).blocked_places = [.Local e.base] ∧
      (BorrowsEdgeKind.DerefExpansion (.BorrowExpansion e)).blocked_by_places = some e.expansion) ∧
    (∀ b : MaybeOldPlace,
      (BorrowsEdgeKind.DerefExpansion (.OwnedExpansion b)).blocked_places = [.Local b] ∧
      (BorrowsEdgeKind.DerefExpansion (.OwnedExpansion b)).blocked_by_places = some [b.project_deref]) ∧
    (∀ ra : AbstractionEdge,
      (∀ p, p ∈ (BorrowsEdgeKind.Abstraction ra).blocked_places ↔
        ∃ edge ∈ ra.abstraction_type.edges, AbstractionTarget.place p ∈ edge.inputs) ∧
      (∃ ps, (BorrowsEdgeKind.Abstraction ra).blocked_by_places = some ps ∧
        ∀ p, p ∈ ps ↔ ∃ edge ∈ ra.abstraction_type.edges, ∃ o ∈ edge.outputs,
          (o = .place p ∨ ∃ rp, o = .regionProjection rp ∧ rp.place = p))) ∧
    (∀ m : RegionProjectionMember, m.direction = .PlaceIsRegionInput →
      (BorrowsEdgeKind.RegionProjectionMember m).blocked_places = [m.place] ∧
      (BorrowsEdgeKind.RegionProjectionMember m).blocked_by_places = some [m.projection.place]) ∧
    (∀ m : RegionProjectionMember, m.direction = .PlaceIsRegionOutput →
      (BorrowsEdgeKind.RegionProjectionMember m).blocked_places = [] ∧
      (∀ p, m.place = .Local p →
        (BorrowsEdgeKind.RegionProjectionMember m).blocked_by_places = some [p])) := by
  refine ⟨fun rb => ⟨rfl, rfl⟩, fun e => ⟨rfl, rfl⟩, fun b => ⟨rfl, rfl⟩, ?_, ?_, ?_⟩
  · intro ra
    constructor
    · intro p
      simp only [BorrowsEdgeKind.blocked_places, AbstractionEdge.blocks_places,
        AbstractionType.blocks_places, List.mem_filterMap, List.mem_flatMap]
      constructor
      · rintro ⟨a, ⟨edge, hedge, ha⟩, hm⟩
        cases a with
        | place q =>
            simp only [Option.some.injEq] at hm
            exact ⟨edge, hedge, hm ▸ ha⟩
        | regionProjection rp => simp at hm
      · rintro ⟨edge, hedge, hp⟩
        exact ⟨.place p, ⟨edge, hedge, hp⟩, rfl⟩
    · refine ⟨ra.abstraction_type.blocker_places, rfl, ?_⟩
      intro p
      simp only [AbstractionType.blocker_places, List.mem_map, List.mem_flatMap]
      constructor
      · rintro ⟨o, ⟨edge, hedge, ho⟩, hm⟩
        refine ⟨edge, hedge, o, ho, ?_⟩
        cases o with
        | place q => left; simp_all
        | regionProjection rp => right; exact ⟨rp, rfl, hm⟩
      · rintro ⟨edge, hedge, o, ho, hcase⟩
        refine ⟨o, ⟨edge, hedge, ho⟩, ?_⟩
        rcases hcase with h | ⟨rp, hrp, hpl⟩
        · simp [h]
        · simp [hrp, hpl]
  · intro m hm
    constructor
    · simp [BorrowsEdgeKind.blocked_places, hm]
    · simp [BorrowsEdgeKind.blocked_by_places, hm]
  · intro m hm
    refine ⟨by simp [BorrowsEdgeKind.blocked_places, hm], ?_⟩
    intro p hp
    simp [BorrowsEdgeKind.blocked_by_places, hm, hp, MaybeRemotePlace.as_local_place]

/-- Witness for C2: the taxonomy evaluated on concrete edges of each
conditioned kind. -/
theorem blocked_places_taxonomy_witness :
    (BorrowsEdgeKind.RegionProjectionMember
      ⟨.Local (.Current ⟨0, []⟩), ⟨.Current ⟨1, []⟩, 0⟩, ⟨0, 0⟩, .PlaceIsRegionInput⟩).blocked_places
      = [.Local (.Current ⟨0, []⟩)] ∧
    (BorrowsEdgeKind.RegionProjectionMember
      ⟨.Local (.Current ⟨0, []⟩), ⟨.Current ⟨1, []⟩, 0⟩, ⟨0, 0⟩, .PlaceIsRegionOutput⟩).blocked_by_places
      = some [.Current ⟨0, []⟩] :=
  ⟨(blocked_places_taxonomy.2.2.2.2.1
      ⟨.Local (.Current ⟨0, []⟩), ⟨.Current ⟨1, []⟩, 0⟩, ⟨0, 0⟩, .PlaceIsRegionInput⟩ rfl).1,
   (blocked_places_taxonomy.2.2.2.2.2
      ⟨.Local (.Current ⟨0, []⟩), ⟨.Current ⟨1, []⟩, 0⟩, ⟨0, 0⟩, .PlaceIsRegionOutput⟩ rfl).2
      (.Current ⟨0, []⟩) rfl⟩

/-- C10: for a `RegionProjectionMember` edge with direction
`PlaceIsRegionOutput`, `blocked_by_places` panics (modelled as `none`,
from the `unwrap` of `as_local_place`) whenever the member's place is
remote, and returns the singleton of the place only when it is local. -/
theorem rpm_output_blocked_by_unwrap :
    ∀ m : RegionProjectionMember, m.direction = .PlaceIsRegionOutput →
      ((∀ r, m.place = .Remote r →
          (BorrowsEdgeKind.RegionProjectionMember m).blocked_by_places = none) ∧
       (∀ p, m.place = .Local p →
          (BorrowsEdgeKind.RegionProjectionMember m).blocked_by_places = some [p])) := by
  intro m hm
  constructor
  · intro r hr
    simp [BorrowsEdgeKind.blocked_by_places, hm, hr, MaybeRemotePlace.as_local_place]
  · intro p hp
    simp [BorrowsEdgeKind.blocked_by_places, hm, hp, MaybeRemotePlace.as_local_place]

/-- Witness for C10: a concrete remote-place output member panics and a
concrete local-place output member yields its place. -/
theorem rpm_output_blocked_by_unwrap_witness :
    (BorrowsEdgeKind.RegionProjectionMember
      ⟨.Remote ⟨2⟩, ⟨.Current ⟨1, []⟩, 0⟩, ⟨0, 0⟩, .PlaceIsRegionOutput⟩).blocked_by_places = none ∧
    (BorrowsEdgeKind.RegionProjectionMember
      ⟨.Local (.Current ⟨3, []⟩), ⟨.Current ⟨1, []⟩, 0⟩, ⟨0, 0⟩, .PlaceIsRegionOutput⟩).blocked_by_places
      = some [.Current ⟨3, []⟩] :=
  ⟨(rpm_output_blocked_by_unwrap
      ⟨.Remote ⟨2⟩, ⟨.Current ⟨1, []⟩, 0⟩, ⟨0, 0⟩, .PlaceIsRegionOutput⟩ rfl).1 ⟨2⟩ rfl,
   (rpm_output_blocked_by_unwrap
      ⟨.Local (.Current ⟨3, []⟩), ⟨.Current ⟨1, []⟩, 0⟩, ⟨0, 0⟩, .PlaceIsRegionOutput⟩ rfl).2
      (.Current ⟨3, []⟩) rfl⟩

theorem Latest.get_insert (m : Latest) (l : Nat) (v : SnapshotLocation) (q : Place) :
    (m.insert l v).get q = if q.localId = l then v else m.get q := by
  unfold Latest.insert Latest.get
  by_cases h : q.localId = l
  · simp [List.lookup, h]
  · have hb : (q.localId == l) = false := by simpa using h
    simp [List.lookup, hb, h]

theorem recordBlocked_preserves (location : MirLocation) (l : List MaybeRemotePlace)
    (s : BorrowsState) (q : Place)
    (h : s.latest.get q = .location location) :
    ((l.foldl (recordBlocked location) s).latest.get q) = .location location := by
  induction l generalizing s with
  | nil => exact h
  | cons a t ih =>
      apply ih
      cases a with
      | Local p =>
          cases p with
          | Current pl =>
              simp only [recordBlocked, BorrowsState.set_latest]
              rw [Latest.get_insert]
              split <;> simp [h]
          | OldPlace sn => exact h
      | Remote r => exact h

theorem recordBlocked_hits (location : MirLocation) (l : List MaybeRemotePlace)
    (s : BorrowsState) (q : Place)
    (h : MaybeRemotePlace.Local (.Current q) ∈ l) :
    ((l.foldl (recordBlocked location) s).latest.get q) = .location location := by
  induction l generalizing s with
  | nil => cases h
  | cons a t ih =>
      rw [List.foldl_cons]
      rcases List.mem_cons.mp h with h1 | h2
      · apply recordBlocked_preserves
        rw [← h1]
        simp [recordBlocked, BorrowsState.set_latest, Latest.get_insert]
      · exact ih _ h2

/-- C5: `remove_edge_and_set_latest(edge, repacker, location)`: when the
edge is not a shared borrow, every blocked place of the edge that is a
local `Current` place ends with `location` recorded in the latest map for
its local; when the edge is a shared borrow, the latest map is left
entirely unchanged by the removal. -/
theorem remove_edge_latest_update :
    ∀ (s : BorrowsState) (edge : BorrowsEdge) (location : MirLocation),
      (edge.is_shared_borrow = false →
        ∀ pl : Place, MaybeRemotePlace.Local (.Current pl) ∈ edge.blocked_places →
          ((s.remove_edge_and_set_latest edge location).1.latest.get pl)
            = .location location) ∧
      (edge.is_shared_borrow = true →
        (s.remove_edge_and_set_latest edge location).1.latest = s.latest) := by
  intro s edge location
  constructor
  · intro hsh pl hpl
    unfold BorrowsState.remove_edge_and_set_latest
    rw [hsh]
    simp only [Bool.false_eq_true, if_false]
    exact recordBlocked_hits location edge.blocked_places s pl hpl
  · intro hsh
    simp [BorrowsState.remove_edge_and_set_latest, hsh]

/-- Witness for C5: a mutable reborrow records the removal location for the
blocked local, a shared reborrow leaves the latest map alone. -/
theorem remove_edge_latest_update_witness :
    ((BorrowsState.mk ⟨[]⟩ ⟨[]⟩).remove_edge_and_set_latest
        ⟨⟨[]⟩, .Reborrow ⟨.Local (.Current ⟨0, []⟩), .Current ⟨1, []⟩, .Mut, ⟨0, 0⟩, 0⟩⟩
        ⟨2, 3⟩).1.latest.get ⟨0, []⟩ = .location ⟨2, 3⟩ ∧
    ((BorrowsState.mk ⟨[(5, .start)]⟩ ⟨[]⟩).remove_edge_and_set_latest
        ⟨⟨[]⟩, .Reborrow ⟨.Local (.Current ⟨0, []⟩), .Current ⟨1, []⟩, .Not, ⟨0, 0⟩, 0⟩⟩
        ⟨2, 3⟩).1.latest = ⟨[(5, .start)]⟩ :=
  ⟨(remove_edge_latest_update (BorrowsState.mk ⟨[]⟩ ⟨[]⟩)
      ⟨⟨[]⟩, .Reborrow ⟨.Local (.Current ⟨0, []⟩), .Current ⟨1, []⟩, .Mut, ⟨0, 0⟩, 0⟩⟩
      ⟨2, 3⟩).1 (by decide) ⟨0, []⟩ (by decide),
   (remove_edge_latest_update (BorrowsState.mk ⟨[(5, .start)]⟩ ⟨[]⟩)
      ⟨⟨[]⟩, .Reborrow ⟨.Local (.Current ⟨0, []⟩), .Current ⟨1, []⟩, .Not, ⟨0, 0⟩, 0⟩⟩
      ⟨2, 3⟩).2 (by decide)⟩

/-- C7: `get_place_blocking(place)` returns nothing (the source's `None`)
whenever the number of edges blocking `place` is not exactly one; with
exactly one blocking edge it returns the assigned place when that edge is
a reborrow and fails (the source's `todo!()` panic, modelled as `none`)
otherwise. -/
theorem get_place_blocking_bounded :
    ∀ (s : BorrowsState) (place : MaybeRemotePlace),
      ((s.edges_blocking place).length ≠ 1 →
        s.get_place_blocking place = some none) ∧
      (∀ e rb, s.edges_blocking place = [e] → e.kind = .Reborrow rb →
        s.get_place_blocking place = some (some rb.assigned_place)) ∧
      (∀ e, s.edges_blocking place = [e] → (∀ rb, e.kind ≠ .Reborrow rb) →
        s.get_place_blocking place = none) := by
  intro s place
  refine ⟨?_, ?_, ?_⟩
  · intro hlen
    unfold BorrowsState.get_place_blocking
    match h : s.edges_blocking place with
    | [] => rfl
    | [e] => exact absurd (by rw [h]; rfl) hlen
    | a :: b :: t2 => rfl
  · intro e rb h hk
    simp [BorrowsState.get_place_blocking, h, hk]
  · intro e h hne
    simp only [BorrowsState.get_place_blocking, h]

/-- Witness for C7: with no blocking edge the query returns nothing; with a
single blocking reborrow it returns the assigned place. -/
theorem get_place_blocking_bounded_witness :
    (BorrowsState.mk ⟨[]⟩ ⟨[]⟩).get_place_blocking (.Local (.Current ⟨0, []⟩)) = some none ∧
    (BorrowsState.mk ⟨[]⟩
        ⟨[⟨⟨[]⟩, .Reborrow ⟨.Local (.Current ⟨0, []⟩), .Current ⟨1, []⟩, .Mut, ⟨0, 0⟩, 0⟩⟩]⟩).get_place_blocking
      (.Local (.Current ⟨0, []⟩)) = some (some (.Current ⟨1, []⟩)) :=
  ⟨(get_place_blocking_bounded (BorrowsState.mk ⟨[]⟩ ⟨[]⟩)
      (.Local (.Current ⟨0, []⟩))).1 (by decide),
   (get_place_blocking_bounded
      (BorrowsState.mk ⟨[]⟩
        ⟨[⟨⟨[]⟩, .Reborrow ⟨.Local (.Current ⟨0, []⟩), .Current ⟨1, []⟩, .Mut, ⟨0, 0⟩, 0⟩⟩]⟩)
      (.Local (.Current ⟨0, []⟩))).2.1
      ⟨⟨[]⟩, .Reborrow ⟨.Local (.Current ⟨0, []⟩), .Current ⟨1, []⟩, .Mut, ⟨0, 0⟩, 0⟩⟩
      ⟨.Local (.Current ⟨0, []⟩), .Current ⟨1, []⟩, .Mut, ⟨0, 0⟩, 0⟩
      (by decide) rfl⟩

/-- Counterexample to C1 as stated: `BorrowsState::make_place_old` never
touches the latest map (it is passed to the graph read-only and the
function receives no current location), so after the call on the empty
state the latest entry for the place's local is still the entry marker
and not the current location `(1, 0)`. -/
theorem make_place_old_latest_counterexample :
    ¬ (((BorrowsState.mk ⟨[]⟩ ⟨[]⟩).make_place_old ⟨0, []⟩).latest.get ⟨0, []⟩
        = .location ⟨1, 0⟩) := by decide

/-- C1 (amended): `make_place_old(place, repacker, debug_ctx)` delegates
the Current-to-Old substitution to the graph, which reads the latest map,
and leaves the latest map itself unchanged: no entry is inserted for the
place's local. -/
theorem make_place_old_delegates :
    ∀ (s : BorrowsState) (place : Place),
      (s.make_place_old place).graph = s.graph.make_place_old place s.latest ∧
      ∀ q : Place, (s.make_place_old place).latest.get q = s.latest.get q :=
  fun _ _ => ⟨rfl, fun _ => rfl⟩

/-- Counterexample to C4 as stated: joining the empty state with a state
that differs only in the latest map changes the state (the latest maps
are joined and the result records a join marker) yet `join` returns
`false`, because the source discards the latest map's change flag. -/
theorem join_latest_only_counterexample :
    ((BorrowsState.mk ⟨[]⟩ ⟨[]⟩).join (BorrowsState.mk ⟨[(0, .location ⟨1, 0⟩)]⟩ ⟨[]⟩) 3 4).2
        = false ∧
    ((BorrowsState.mk ⟨[]⟩ ⟨[]⟩).join (BorrowsState.mk ⟨[(0, .location ⟨1, 0⟩)]⟩ ⟨[]⟩) 3 4).1
        ≠ BorrowsState.mk ⟨[]⟩ ⟨[]⟩ := by decide

/-- C4 (amended): `join(other, self_block, other_block, ...)` joins both
the graph and the latest map, but its return value reports only graph
growth: it returns `true` iff the graph component changed (a latest-only
change is deliberately treated as non-progress to prevent divergence). -/
theorem join_changed_iff_graph :
    ∀ (s other : BorrowsState) (b1 b2 : Nat),
      (s.join other b1 b2).1.graph = (BorrowsGraph.join s.graph other.graph b1 b2).1 ∧
      (s.join other b1 b2).1.latest = (Latest.join s.latest other.latest b1).1 ∧
      ((s.join other b1 b2).2 = true ↔ (s.join other b1 b2).1.graph ≠ s.graph) := by
  intro s other b1 b2
  refine ⟨rfl, rfl, ?_⟩
  show decide _ = true ↔ _
  rw [decide_eq_true_eq]
  constructor
  · intro h hc
    exact h (congrArg BorrowsGraph.edges hc)
  · intro h hc
    exact h (congrArg BorrowsGraph.mk hc)

theorem make_place_old_idem_MaybeOldPlace (x : MaybeOldPlace) (p : Place) (l : Latest) :
    (x.make_place_old p l).make_place_old p l = x.make_place_old p l := by
  cases x with
  | OldPlace s => simp [MaybeOldPlace.make_place_old, MaybeOldPlace.is_current]
  | Current q =>
      unfold MaybeOldPlace.make_place_old
      by_cases h : p.isPrefixOf (MaybeOldPlace.place (.Current q))
      · simp [MaybeOldPlace.is_current, h]
      · simp [MaybeOldPlace.is_current, h]

theorem make_place_old_idem_MaybeRemotePlace (x : MaybeRemotePlace) (p : Place) (l : Latest) :
    (x.make_place_old p l).make_place_old p l = x.make_place_old p l := by
  cases x with
  | Local q => simp [MaybeRemotePlace.make_place_old, make_place_old_idem_MaybeOldPlace]
  | Remote r => rfl

theorem make_place_old_idem_RegionProjection (x : RegionProjection) (p : Place) (l : Latest) :
    (x.make_place_old p l).make_place_old p l = x.make_place_old p l := by
  simp [RegionProjection.make_place_old, make_place_old_idem_MaybeOldPlace]

theorem make_place_old_idem_Reborrow (x : Reborrow) (p : Place) (l : Latest) :
    (x.make_place_old p l).make_place_old p l = x.make_place_old p l := by
  simp [Reborrow.make_place_old, make_place_old_idem_MaybeOldPlace,
    make_place_old_idem_MaybeRemotePlace]

theorem make_place_old_idem_DerefExpansion (x : DerefExpansion) (p : Place) (l : Latest) :
    (x.make_place_old p l).make_place_old p l = x.make_place_old p l := by
  cases x with
  | OwnedExpansion b => simp [DerefExpansion.make_place_old, make_place_old_idem_MaybeOldPlace]
  | BorrowExpansion e => simp [DerefExpansion.make_place_old, make_place_old_idem_MaybeOldPlace]

theorem make_place_old_idem_AbstractionInputTarget (x : AbstractionInputTarget) (p : Place) (l : Latest) :
    (x.make_place_old p l).make_place_old p l = x.make_place_old p l := by
  cases x with
  | place q => simp [AbstractionInputTarget.make_place_old, make_place_old_idem_MaybeRemotePlace]
  | regionProjection rp =>
      simp [AbstractionInputTarget.make_place_old, make_place_old_idem_RegionProjection]

theorem make_place_old_idem_AbstractionOutputTarget (x : AbstractionOutputTarget) (p : Place) (l : Latest) :
    (x.make_place_old p l).make_place_old p l = x.make_place_old p l := by
  cases x with
  | place q => simp [AbstractionOutputTarget.make_place_old, make_place_old_idem_MaybeOldPlace]
  | regionProjection rp =>
      simp [AbstractionOutputTarget.make_place_old, make_place_old_idem_RegionProjection]

theorem make_place_old_idem_AbstractionBlockEdge (x : AbstractionBlockEdge) (p : Place) (l : Latest) :
    (x.make_place_old p l).make_place_old p l = x.make_place_old p l := by
  simp only [AbstractionBlockEdge.make_place_old, List.map_map]
  congr 1
  · exact List.map_congr_left fun a _ => make_place_old_idem_AbstractionInputTarget a p l
  · exact List.map_congr_left fun a _ => make_place_old_idem_AbstractionOutputTarget a p l

theorem make_place_old_idem_AbstractionType (x : AbstractionType) (p : Place) (l : Latest) :
    (x.make_place_old p l).make_place_old p l = x.make_place_old p l := by
  cases x with
  | FunctionCall c =>
      simp only [AbstractionType.make_place_old, List.map_map]
      congr 1
      congr 1
      exact List.map_congr_left fun a _ => by
        simp [make_place_old_idem_AbstractionBlockEdge]
  | Loop c => simp [AbstractionType.make_place_old, make_place_old_idem_AbstractionBlockEdge]

theorem make_place_old_idem_AbstractionEdge (x : AbstractionEdge) (p : Place) (l : Latest) :
    (x.make_place_old p l).make_place_old p l = x.make_place_old p l := by
  simp [AbstractionEdge.make_place_old, make_place_old_idem_AbstractionType]

theorem make_place_old_idem_RegionProjectionMember (x : RegionProjectionMember) (p : Place) (l : Latest) :
    (x.make_place_old p l).make_place_old p l = x.make_place_old p l := by
  simp [RegionProjectionMember.make_place_old, make_place_old_idem_MaybeRemotePlace,
    make_place_old_idem_RegionProjection]

theorem make_place_old_idem_BorrowsEdgeKind (x : BorrowsEdgeKind) (p : Place) (l : Latest) :
    (x.make_place_old p l).make_place_old p l = x.make_place_old p l := by
  cases x with
  | Reborrow r => simp [BorrowsEdgeKind.make_place_old, make_place_old_idem_Reborrow]
  | DerefExpansion d => simp [BorrowsEdgeKind.make_place_old, make_place_old_idem_DerefExpansion]
  | Abstraction a => simp [BorrowsEdgeKind.make_place_old, make_place_old_idem_AbstractionEdge]
  | RegionProjectionMember m =>
      simp [BorrowsEdgeKind.make_place_old, make_place_old_idem_RegionProjectionMember]

theorem make_place_old_idem_BorrowsEdge (x : BorrowsEdge) (p : Place) (l : Latest) :
    (x.make_place_old p l).make_place_old p l = x.make_place_old p l := by
  simp [BorrowsEdge.make_place_old, make_place_old_idem_BorrowsEdgeKind]

/-- C8: `make_place_old` is idempotent: applying it twice for the same
place yields the same state as applying it once; the per-element
substitution never rewrites a place that is already `Old`, and leaves a
`Current` place unchanged unless the substituted place is a prefix of
it. -/
theorem make_place_old_idempotent :
    ∀ p : Place,
      (∀ s : BorrowsState, (s.make_place_old p).make_place_old p = s.make_place_old p) ∧
      (∀ (snap : PlaceSnapshot) (l : Latest),
        MaybeOldPlace.make_place_old (.OldPlace snap) p l = .OldPlace snap) ∧
      (∀ (q : Place) (l : Latest), p.isPrefixOf q = false →
        MaybeOldPlace.make_place_old (.Current q) p l = .Current q) := by
  intro p
  refine ⟨?_, ?_, ?_⟩
  · intro s
    show BorrowsState.mk _ _ = BorrowsState.mk _ _
    simp only [BorrowsState.make_place_old, BorrowsGraph.make_place_old, List.map_map]
    congr 2
    exact List.map_congr_left fun e _ => by
      simp [make_place_old_idem_BorrowsEdge]
  · intro snap l
    simp [MaybeOldPlace.make_place_old, MaybeOldPlace.is_current]
  · intro q l h
    simp [MaybeOldPlace.make_place_old, MaybeOldPlace.is_current, MaybeOldPlace.place, h]

/-- Witness for C8: the substitution of local 0 in a one-reborrow state is
idempotent, an old place survives untouched, and a current place of a
different local is not rewritten. -/
theorem make_place_old_idempotent_witness :
    (((BorrowsState.mk ⟨[]⟩
        ⟨[⟨⟨[]⟩, .Reborrow ⟨.Local (.Current ⟨0, []⟩), .Current ⟨1, []⟩, .Mut, ⟨0, 0⟩, 0⟩⟩]⟩).make_place_old
          ⟨0, []⟩).make_place_old ⟨0, []⟩
      = (BorrowsState.mk ⟨[]⟩
        ⟨[⟨⟨[]⟩, .Reborrow ⟨.Local (.Current ⟨0, []⟩), .Current ⟨1, []⟩, .Mut, ⟨0, 0⟩, 0⟩⟩]⟩).make_place_old
          ⟨0, []⟩) ∧
    MaybeOldPlace.make_place_old (.OldPlace ⟨⟨0, []⟩, .start⟩) ⟨0, []⟩ ⟨[]⟩
      = .OldPlace ⟨⟨0, []⟩, .start⟩ ∧
    MaybeOldPlace.make_place_old (.Current ⟨1, []⟩) ⟨0, []⟩ ⟨[]⟩ = .Current ⟨1, []⟩ :=
  ⟨(make_place_old_idempotent ⟨0, []⟩).1 _,
   (make_place_old_idempotent ⟨0, []⟩).2.1 ⟨⟨0, []⟩, .start⟩ ⟨[]⟩,
   (make_place_old_idempotent ⟨0, []⟩).2.2 ⟨1, []⟩ ⟨[]⟩ (by decide)⟩

theorem has_reborrow_at_location_iff (g : BorrowsGraph) (loc : MirLocation) :
    g.has_reborrow_at_location loc = true ↔
      ∃ rb ∈ g.reborrows, rb.value.reserve_location = loc := by
  unfold BorrowsGraph.has_reborrow_at_location BorrowsGraph.reborrows
  rw [List.any_eq_true]
  constructor
  · rintro ⟨e, he, hm⟩
    cases hk : e.kind with
    | Reborrow rb =>
        rw [hk] at hm
        refine ⟨⟨e.conditions, rb⟩, ?_, by simpa using hm⟩
        rw [List.mem_filterMap]
        exact ⟨e, he, by rw [hk]⟩
    | DerefExpansion d => rw [hk] at hm; cases hm
    | Abstraction a => rw [hk] at hm; cases hm
    | RegionProjectionMember m => rw [hk] at hm; cases hm
  · rintro ⟨rb, hrb, hloc⟩
    rw [List.mem_filterMap] at hrb
    obtain ⟨e, he, hm⟩ := hrb
    refine ⟨e, he, ?_⟩
    cases hk : e.kind with
    | Reborrow rb' =>
        rw [hk] at hm
        simp only [Option.some.injEq] at hm
        subst hm
        simpa using hloc
    | DerefExpansion d => rw [hk] at hm; cases hm
    | Abstraction a => rw [hk] at hm; cases hm
    | RegionProjectionMember m => rw [hk] at hm; cases hm

theorem state_has_reborrow_iff (s : BorrowsState) (loc : MirLocation) :
    s.has_reborrow_at_location loc = true ↔
      ∃ rb ∈ s.reborrows, rb.value.reserve_location = loc :=
  has_reborrow_at_location_iff s.graph loc

/-- C3: `bridge(to, ...)` returns a `ReborrowBridge` whose
`added_reborrows` are exactly the reborrows of `to` with no reborrow of
`self` at their reserve location, whose `expands` are exactly the deref
expansions of `to` absent from `self`, and whose unblock graph consists
of a kill of each reborrow of `self` with no reborrow of `to` at its
reserve location, an unblock of the base of each deref expansion of
`self` absent from `to`, and a kill of each abstraction of `self` absent
from `to`. -/
theorem bridge_characterization :
    ∀ (s toS : BorrowsState),
      (∀ rb, rb ∈ (s.bridge toS).added_reborrows ↔
        rb ∈ toS.reborrows ∧
          ¬ ∃ rb' ∈ s.reborrows,
              rb'.value.reserve_location = rb.value.reserve_location) ∧
      (∀ de, de ∈ (s.bridge toS).expands ↔
        de ∈ toS.deref_expansions ∧ de ∉ s.deref_expansions) ∧
      (∀ rb, UnblockCommand.killReborrow rb ∈ (s.bridge toS).ug ↔
        rb ∈ s.reborrows ∧
          ¬ ∃ rb' ∈ toS.reborrows,
              rb'.value.reserve_location = rb.value.reserve_location) ∧
      (∀ p, UnblockCommand.unblockPlace p ∈ (s.bridge toS).ug ↔
        ∃ de ∈ s.deref_expansions,
          de ∉ toS.deref_expansions ∧ p = .Local de.value.base) ∧
      (∀ a, UnblockCommand.killAbstraction a ∈ (s.bridge toS).ug ↔
        a ∈ s.region_abstractions ∧ a ∉ toS.region_abstractions) := by
  intro s toS
  refine ⟨?_, ?_, ?_, ?_, ?_⟩
  · intro rb
    simp only [BorrowsState.bridge, List.mem_filter, Bool.not_eq_true',
      ← Bool.not_eq_true (BorrowsState.has_reborrow_at_location _ _)]
    rw [and_congr_right_iff]
    intro _
    rw [not_iff_not]
    exact state_has_reborrow_iff s rb.value.reserve_location
  · intro de
    simp [BorrowsState.bridge, List.mem_filter]
  · intro rb
    simp only [BorrowsState.bridge, List.mem_append, List.mem_map, List.mem_filter]
    constructor
    · rintro ((⟨x, ⟨hx, hloc⟩, hinj⟩ | ⟨x, _, hbad⟩) | ⟨x, _, hbad⟩)
      · obtain rfl : x = rb := by injection hinj
        refine ⟨hx, ?_⟩
        rw [← state_has_reborrow_iff toS]
        simpa using hloc
      · cases hbad
      · cases hbad
    · rintro ⟨hx, habs⟩
      left; left
      refine ⟨rb, ⟨hx, ?_⟩, rfl⟩
      rw [← state_has_reborrow_iff toS] at habs
      simpa using habs
  · intro p
    simp only [BorrowsState.bridge, List.mem_append, List.mem_map, List.mem_filter]
    constructor
    · rintro ((⟨x, _, hbad⟩ | ⟨x, ⟨hx, hnot⟩, hinj⟩) | ⟨x, _, hbad⟩)
      · cases hbad
      · obtain rfl : MaybeRemotePlace.Local x.value.base = p := by injection hinj
        exact ⟨x, hx, by simpa using hnot, rfl⟩
      · cases hbad
    · rintro ⟨de, hde, hnot, rfl⟩
      left; right
      exact ⟨de, ⟨hde, by simpa using hnot⟩, rfl⟩
  · intro a
    simp only [BorrowsState.bridge, List.mem_append, List.mem_map, List.mem_filter]
    constructor
    · rintro ((⟨x, _, hbad⟩ | ⟨x, _, hbad⟩) | ⟨x, ⟨hx, hnot⟩, hinj⟩)
      · cases hbad
      · cases hbad
      · obtain rfl : x = a := by injection hinj
        exact ⟨hx, by simpa using hnot⟩
    · rintro ⟨hx, hnot⟩
      right
      exact ⟨a, ⟨hx, by simpa using hnot⟩, rfl⟩

theorem recordBlocked_graph (location : MirLocation) (l : List MaybeRemotePlace) (s : BorrowsState) :
    (l.foldl (recordBlocked location) s).graph = s.graph := by
  induction l generalizing s with
  | nil => rfl
  | cons a t ih =>
      rw [List.foldl_cons, ih]
      cases a with
      | Local p =>
          cases p with
          | Current pl => rfl
          | OldPlace sn => rfl
      | Remote r => rfl

theorem remove_edge_graph (s : BorrowsState) (edge : BorrowsEdge) (loc : MirLocation) :
    ((s.remove_edge_and_set_latest edge loc).1).graph.edges = s.graph.edges.erase edge := by
  unfold BorrowsState.remove_edge_and_set_latest
  by_cases h : edge.is_shared_borrow <;>
    simp [h, BorrowsGraph.remove, recordBlocked_graph]

theorem removeEdges_length_le (l : List BorrowsEdge) (s : BorrowsState) (loc : MirLocation) :
    ((s.removeEdges l loc).graph.edges).length ≤ s.graph.edges.length := by
  induction l generalizing s with
  | nil => exact Nat.le_refl _
  | cons e t ih =>
      unfold BorrowsState.removeEdges
      rw [List.foldl_cons]
      refine Nat.le_trans (ih _) ?_
      rw [remove_edge_graph]
      exact (List.erase_sublist _ _).length_le

theorem removeEdges_length_lt (e : BorrowsEdge) (t : List BorrowsEdge)
    (s : BorrowsState) (loc : MirLocation) (he : e ∈ s.graph.edges) :
    ((s.removeEdges (e :: t) loc).graph.edges).length < s.graph.edges.length := by
  unfold BorrowsState.removeEdges
  rw [List.foldl_cons]
  refine Nat.lt_of_le_of_lt (removeEdges_length_le t _ loc) ?_
  rw [remove_edge_graph, List.length_erase_of_mem he]
  exact Nat.sub_lt (List.length_pos_of_mem he) Nat.one_pos

theorem minimize_step_lt (s : BorrowsState) (loc : MirLocation)
    (h : (s.graph.edges.filter fun e => minimizeCond s.graph e) ≠ []) :
    ((s.removeEdges (s.graph.edges.filter fun e => minimizeCond s.graph e) loc).graph.edges).length
      < s.graph.edges.length := by
  cases hl : s.graph.edges.filter fun e => minimizeCond s.graph e with
  | nil => exact absurd hl h
  | cons a t =>
      refine removeEdges_length_lt a t s loc ?_
      exact List.mem_of_mem_filter (hl ▸ List.mem_cons_self a t)

theorem trim_step_lt (s : BorrowsState) (loc : MirLocation)
    (h : trimRemoved s.graph ≠ []) :
    ((s.removeEdges (trimRemoved s.graph) loc).graph.edges).length < s.graph.edges.length := by
  cases hl : trimRemoved s.graph with
  | nil => exact absurd hl h
  | cons a t =>
      refine removeEdges_length_lt a t s loc ?_
      have ha : a ∈ trimRemoved s.graph := hl ▸ List.mem_cons_self a t
      exact List.mem_of_mem_filter (List.mem_of_mem_filter ha)

theorem minimizeF_stable (n : Nat) :
    ∀ (m : Nat) (s : BorrowsState) (loc : MirLocation),
      s.graph.edges.length < n → s.graph.edges.length < m →
      minimizeF n s loc = minimizeF m s loc := by
  induction n with
  | zero => intro m s loc hn; exact absurd hn (Nat.not_lt_zero _)
  | succ n ih =>
      intro m s loc hn hm
      cases m with
      | zero => exact absurd hm (Nat.not_lt_zero _)
      | succ m =>
          show minimizeF (n + 1) s loc = minimizeF (m + 1) s loc
          unfold minimizeF
          by_cases hg : s.graph.blockedByUndefined
          · simp [hg]
          · simp only [hg, Bool.false_eq_true, if_false]
            by_cases htr : (s.graph.edges.filter fun e => minimizeCond s.graph e).isEmpty
            · simp [htr]
            · simp only [htr, Bool.false_eq_true, if_false]
              have hne : (s.graph.edges.filter fun e => minimizeCond s.graph e) ≠ [] := by
                intro hc
                rw [hc] at htr
                exact htr rfl
              have hlt := minimize_step_lt s loc hne
              exact ih m _ loc (by omega) (by omega)

theorem trimOldLeavesF_stable (n : Nat) :
    ∀ (m : Nat) (s : BorrowsState) (loc : MirLocation),
      s.graph.edges.length < n → s.graph.edges.length < m →
      trimOldLeavesF n s loc = trimOldLeavesF m s loc := by
  induction n with
  | zero => intro m s loc hn; exact absurd hn (Nat.not_lt_zero _)
  | succ n ih =>
      intro m s loc hn hm
      cases m with
      | zero => exact absurd hm (Nat.not_lt_zero _)
      | succ m =>
          show trimOldLeavesF (n + 1) s loc = trimOldLeavesF (m + 1) s loc
          unfold trimOldLeavesF
          by_cases hg : s.graph.blockedByUndefined
          · simp [hg]
          · simp only [hg, Bool.false_eq_true, if_false]
            by_cases htr : (trimRemoved s.graph).isEmpty
            · simp [htr]
            · simp only [htr, Bool.false_eq_true, if_false]
              have hne : trimRemoved s.graph ≠ [] := by
                intro hc
                rw [hc] at htr
                exact htr rfl
              have hlt := trim_step_lt s loc hne
              exact ih m _ loc (by omega) (by omega)

/-- C9: the fixpoint loops of `minimize` and `trim_old_leaves` terminate
on every state: an iteration whose removal set is nonempty strictly
shrinks the finite edge set, and consequently the iteration is fuel
insensitive (hence well defined) beyond `edges.length` rounds. -/
theorem fixpoint_loops_terminate :
    ∀ (s : BorrowsState) (loc : MirLocation),
      ((s.graph.edges.filter fun e => minimizeCond s.graph e) ≠ [] →
        ((s.removeEdges (s.graph.edges.filter fun e => minimizeCond s.graph e) loc).graph.edges).length
          < s.graph.edges.length) ∧
      (trimRemoved s.graph ≠ [] →
        ((s.removeEdges (trimRemoved s.graph) loc).graph.edges).length
          < s.graph.edges.length) ∧
      (∀ n m : Nat, s.graph.edges.length < n → s.graph.edges.length < m →
        minimizeF n s loc = minimizeF m s loc) ∧
      (∀ n m : Nat, s.graph.edges.length < n → s.graph.edges.length < m →
        trimOldLeavesF n s loc = trimOldLeavesF m s loc) :=
  fun s loc =>
    ⟨minimize_step_lt s loc, trim_step_lt s loc,
     fun n m hn hm => minimizeF_stable n m s loc hn hm,
     fun n m hn hm => trimOldLeavesF_stable n m s loc hn hm⟩

/-- Witness for C9: on a one-edge graph holding a loop abstraction with no
outputs, the removal set is nonempty and one iteration empties the graph;
the iterations are fuel insensitive past the edge count. -/
theorem fixpoint_loops_terminate_witness :
    (((BorrowsState.mk ⟨[]⟩ ⟨[⟨⟨[]⟩, .Abstraction ⟨.Loop ⟨⟨[], []⟩, 0⟩⟩⟩]⟩).removeEdges
        ((BorrowsState.mk ⟨[]⟩ ⟨[⟨⟨[]⟩, .Abstraction ⟨.Loop ⟨⟨[], []⟩, 0⟩⟩⟩]⟩).graph.edges.filter
          fun e => minimizeCond (BorrowsState.mk ⟨[]⟩ ⟨[⟨⟨[]⟩, .Abstraction ⟨.Loop ⟨⟨[], []⟩, 0⟩⟩⟩]⟩).graph e)
        ⟨0, 0⟩).graph.edges).length
      < (BorrowsState.mk ⟨[]⟩ ⟨[⟨⟨[]⟩, .Abstraction ⟨.Loop ⟨⟨[], []⟩, 0⟩⟩⟩]⟩).graph.edges.length ∧
    (((BorrowsState.mk ⟨[]⟩ ⟨[⟨⟨[]⟩, .Abstraction ⟨.Loop ⟨⟨[], []⟩, 0⟩⟩⟩]⟩).removeEdges
        (trimRemoved (BorrowsState.mk ⟨[]⟩ ⟨[⟨⟨[]⟩, .Abstraction ⟨.Loop ⟨⟨[], []⟩, 0⟩⟩⟩]⟩).graph)
        ⟨0, 0⟩).graph.edges).length
      < (BorrowsState.mk ⟨[]⟩ ⟨[⟨⟨[]⟩, .Abstraction ⟨.Loop ⟨⟨[], []⟩, 0⟩⟩⟩]⟩).graph.edges.length ∧
    minimizeF 2 (BorrowsState.mk ⟨[]⟩ ⟨[⟨⟨[]⟩, .Abstraction ⟨.Loop ⟨⟨[], []⟩, 0⟩⟩⟩]⟩) ⟨0, 0⟩
      = minimizeF 3 (BorrowsState.mk ⟨[]⟩ ⟨[⟨⟨[]⟩, .Abstraction ⟨.Loop ⟨⟨[], []⟩, 0⟩⟩⟩]⟩) ⟨0, 0⟩ ∧
    trimOldLeavesF 2 (BorrowsState.mk ⟨[]⟩ ⟨[⟨⟨[]⟩, .Abstraction ⟨.Loop ⟨⟨[], []⟩, 0⟩⟩⟩]⟩) ⟨0, 0⟩
      = trimOldLeavesF 3 (BorrowsState.mk ⟨[]⟩ ⟨[⟨⟨[]⟩, .Abstraction ⟨.Loop ⟨⟨[], []⟩, 0⟩⟩⟩]⟩) ⟨0, 0⟩ :=
  ⟨(fixpoint_loops_terminate (BorrowsState.mk ⟨[]⟩ ⟨[⟨⟨[]⟩, .Abstraction ⟨.Loop ⟨⟨[], []⟩, 0⟩⟩⟩]⟩)
      ⟨0, 0⟩).1 (by decide),
   (fixpoint_loops_terminate (BorrowsState.mk ⟨[]⟩ ⟨[⟨⟨[]⟩, .Abstraction ⟨.Loop ⟨⟨[], []⟩, 0⟩⟩⟩]⟩)
      ⟨0, 0⟩).2.1 (by decide),
   (fixpoint_loops_terminate (BorrowsState.mk ⟨[]⟩ ⟨[⟨⟨[]⟩, .Abstraction ⟨.Loop ⟨⟨[], []⟩, 0⟩⟩⟩]⟩)
      ⟨0, 0⟩).2.2.1 2 3 (by decide) (by decide),
   (fixpoint_loops_terminate (BorrowsState.mk ⟨[]⟩ ⟨[⟨⟨[]⟩, .Abstraction ⟨.Loop ⟨⟨[], []⟩, 0⟩⟩⟩]⟩)
      ⟨0, 0⟩).2.2.2 2 3 (by decide) (by decide)⟩

theorem minimizeF_fixpoint (n : Nat) :
    ∀ (s s' : BorrowsState) (loc : MirLocation),
      minimizeF n s loc = some s' →
      s'.graph.blockedByUndefined = false ∧
        ∀ e ∈ s'.graph.edges, minimizeCond s'.graph e = false := by
  induction n with
  | zero => intro s s' loc h; cases h
  | succ n ih =>
      intro s s' loc h
      unfold minimizeF at h
      by_cases hg : s.graph.blockedByUndefined
      · rw [if_pos hg] at h; cases h
      · rw [if_neg hg] at h
        by_cases htr : (s.graph.edges.filter fun e => minimizeCond s.graph e).isEmpty
        · rw [if_pos htr] at h
          obtain rfl : s = s' := by injection h
          refine ⟨by simpa using hg, ?_⟩
          intro e he
          have hnil : (s.graph.edges.filter fun e => minimizeCond s.graph e) = [] :=
            List.isEmpty_iff.mp htr
          have := List.filter_eq_nil_iff.mp hnil e he
          simpa using this
        · rw [if_neg htr] at h
          exact ih _ _ _ h

/-- C6: when `minimize(repacker, location)` returns (models the loop
exiting), the resulting graph contains no edge whose defined
`blocked_by_places` consists entirely of Old places unblocked in the
graph, and no non-owned `BorrowExpansion` edge all of whose expansion
children are free of further blocking edges: the removal condition holds
for no remaining edge. -/
theorem minimize_reaches_fixpoint :
    ∀ (s s' : BorrowsState) (loc : MirLocation),
      s.minimize loc = some s' →
      ∀ e ∈ s'.graph.edges,
        (∀ ps, e.kind.blocked_by_places = some ps →
          ¬ (∀ p ∈ ps, p.is_old = true ∧
              s'.graph.has_edge_blocking (.Local p) = false)) ∧
        (∀ de, e.kind = .DerefExpansion de → de.is_owned_expansion = false →
          ¬ (∀ q ∈ de.expansion,
              s'.graph.has_edge_blocking (.Local q) = false)) := by
  intro s s' loc h e he
  have hcond := (minimizeF_fixpoint _ s s' loc h).2 e he
  unfold minimizeCond at hcond
  rw [Bool.or_eq_false_iff] at hcond
  obtain ⟨hc1, hc2⟩ := hcond
  constructor
  · intro ps hps hall
    rw [hps] at hc1
    have hc1' : ps.all
        (fun p => p.is_old && !(s'.graph.has_edge_blocking (.Local p))) = false := hc1
    have hall' : ps.all
        (fun p => p.is_old && !(s'.graph.has_edge_blocking (.Local p))) = true := by
      rw [List.all_eq_true]
      intro p hp
      obtain ⟨h1, h2⟩ := hall p hp
      simp [h1, h2]
    rw [hall'] at hc1'
    cases hc1'
  · intro de hde howned hall
    rw [hde] at hc2
    have hc2' : (!de.is_owned_expansion &&
        de.expansion.all (fun p => !(s'.graph.has_edge_blocking (.Local p)))) = false := hc2
    rw [howned] at hc2'
    have hall' : de.expansion.all
        (fun p => !(s'.graph.has_edge_blocking (.Local p))) = true := by
      rw [List.all_eq_true]
      intro q hq
      simp [hall q hq]
    rw [hall'] at hc2'
    cases hc2'

/-- Witness for C6: the one-edge state whose reborrow blocks and is
blocked by current places is already a fixpoint of `minimize`, and the
blocked-by singleton of its edge is not entirely old-and-unblocked. -/
theorem minimize_reaches_fixpoint_witness :
    (BorrowsState.mk ⟨[]⟩
        ⟨[⟨⟨[]⟩, .Reborrow ⟨.Local (.Current ⟨0, []⟩), .Current ⟨1, []⟩, .Mut, ⟨0, 0⟩, 0⟩⟩]⟩).minimize
      ⟨2, 0⟩
      = some (BorrowsState.mk ⟨[]⟩
        ⟨[⟨⟨[]⟩, .Reborrow ⟨.Local (.Current ⟨0, []⟩), .Current ⟨1, []⟩, .Mut, ⟨0, 0⟩, 0⟩⟩]⟩) ∧
    ¬ (∀ p ∈ [MaybeOldPlace.Current ⟨1, []⟩], p.is_old = true ∧
        (BorrowsState.mk ⟨[]⟩
          ⟨[⟨⟨[]⟩, .Reborrow ⟨.Local (.Current ⟨0, []⟩), .Current ⟨1, []⟩, .Mut, ⟨0, 0⟩, 0⟩⟩]⟩).graph.has_edge_blocking
          (.Local p) = false) :=
  ⟨by decide,
   (minimize_reaches_fixpoint
      (BorrowsState.mk ⟨[]⟩
        ⟨[⟨⟨[]⟩, .Reborrow ⟨.Local (.Current ⟨0, []⟩), .Current ⟨1, []⟩, .Mut, ⟨0, 0⟩, 0⟩⟩]⟩)
      (BorrowsState.mk ⟨[]⟩
        ⟨[⟨⟨[]⟩, .Reborrow ⟨.Local (.Current ⟨0, []⟩), .Current ⟨1, []⟩, .Mut, ⟨0, 0⟩, 0⟩⟩]⟩)
      ⟨2, 0⟩ (by decide)
      ⟨⟨[]⟩, .Reborrow ⟨.Local (.Current ⟨0, []⟩), .Current ⟨1, []⟩, .Mut, ⟨0, 0⟩, 0⟩⟩
      (by decide)).1
      [MaybeOldPlace.Current ⟨1, []⟩] rfl⟩
